import Mathlib

/-!
Shallow embedding of the transaction-decoder sources (src/lib.rs, src/main.rs,
src/transaction.rs) and proofs about the codec layer.

Modelling conventions:
- Rust byte buffers `&[u8]` become `List Nat`; every byte produced by the
  embedded encoders is reduced mod 256 exactly where the source casts to `u8`.
- The forward-only cursor `&mut &[u8]` becomes explicit state passing: each
  reader takes the remaining bytes and returns the value paired with the rest.
- `std::io::Read::read` on a slice never fails; it copies
  `min(buf.len, remaining)` bytes into a zero-initialised buffer and advances.
  This is `readPad` below.  `read_exact` fails with `UnexpectedEof` when fewer
  bytes remain than requested; this is `readExact` below.
- Fallible Rust functions returning `Result<_, E>` become `Except`.
- A Rust `panic!` / `.expect(..)` reachable from the modelled code is made
  explicit with `Option`: `none` is the panic outcome, it is not an error
  value returned to the caller.
-/

/-- Kinds of std::io errors produced by the sources. -/
inductive ErrKind where
  | invalidData
  | invalidInput
  | unexpectedEof
  deriving DecidableEq, Repr

/-- Model of std::io::Error as constructed by the sources (kind plus message). -/
structure IOErr where
  kind : ErrKind
  msg : String
  deriving DecidableEq, Repr

/-- Decidable equality for Except results, for evaluating the codecs on
concrete inputs. -/
instance {ε α : Type} [DecidableEq ε] [DecidableEq α] : DecidableEq (Except ε α) := fun x y =>
  match x, y with
  | .ok a, .ok b =>
    if h : a = b then isTrue (by rw [h]) else isFalse (fun he => h (Except.ok.inj he))
  | .ok _, .error _ => isFalse (fun he => Except.noConfusion he)
  | .error _, .ok _ => isFalse (fun he => Except.noConfusion he)
  | .error e, .error f =>
    if h : e = f then isTrue (by rw [h]) else isFalse (fun he => h (Except.error.inj he))

/-- The UnexpectedEof error produced by a failed read_exact. -/
def eofErr : IOErr := ⟨ErrKind.unexpectedEof, "failed to fill whole buffer"⟩

/-- Little-endian byte decomposition, k bytes: models uN::to_le_bytes applied
to an already-truncated value. -/
def toLE : Nat → Nat → List Nat
  | 0, _ => []
  | k + 1, v => v % 256 :: toLE k (v / 256)

/-- Little-endian byte recomposition: models uN::from_le_bytes. -/
def fromLE (bs : List Nat) : Nat :=
  bs.foldr (fun b acc => b + 256 * acc) 0

/-- Model of std::io::Read::read on a slice into a zero-initialised buffer of
size n: copies min(n, remaining) bytes, leaves the tail of the buffer zero,
and never fails. Returns (buffer contents, remaining bytes). -/
def readPad (n : Nat) (l : List Nat) : List Nat × List Nat :=
  (l.take n ++ List.replicate (n - l.length) 0, l.drop n)

/-- Model of std::io::Read::read_exact on a slice: fails with UnexpectedEof
when fewer than n bytes remain. -/
def readExact (n : Nat) (l : List Nat) : Except IOErr (List Nat × List Nat) :=
  if n ≤ l.length then .ok (l.take n, l.drop n) else .error eofErr

/-- Value of a hex digit character as accepted by the hex crate. -/
def hexVal (c : Char) : Option Nat :=
  let n := c.toNat
  if 48 ≤ n ∧ n ≤ 57 then some (n - 48)
  else if 97 ≤ n ∧ n ≤ 102 then some (n - 87)
  else if 65 ≤ n ∧ n ≤ 70 then some (n - 55)
  else none

/-- Model of hex::decode: two hex digits per byte, fails on odd length or on
a non-hex character. -/
def hexDecode : List Char → Option (List Nat)
  | [] => some []
  | [_] => none
  | c1 :: c2 :: rest =>
    match hexVal c1, hexVal c2, hexDecode rest with
    | some hi, some lo, some bs => some ((16 * hi + lo) :: bs)
    | _, _, _ => none

/-- Lowercase hex digit character for a nibble. -/
def hexDigitChar (n : Nat) : Char :=
  if n < 10 then Char.ofNat (48 + n) else Char.ofNat (87 + n)

/-- Model of hex::encode: lowercase, two characters per byte, no separators. -/
def hexEncode (bs : List Nat) : List Char :=
  bs.foldr (fun b acc => hexDigitChar (b / 16 % 16) :: hexDigitChar (b % 16) :: acc) []

/-- Transaction input record. transaction.rs defines TxIn with these fields;
lib.rs refers to a structurally identical Input type that is not present
under src/. Modelled from the spec: section 3 gives TxIn as previous
identifier (32 bytes), previous output index (u32), unlocking script
(hex-displayed blob), sequence (u32). -/
structure TxIn where
  previous_txid : List Nat
  previous_vout : Nat
  script_sig : List Char
  sequence : Nat
  deriving DecidableEq, Repr

/-- Transaction output record. transaction.rs defines TxOut with these fields;
lib.rs refers to a structurally identical Output type that is not present
under src/. Modelled from the spec: section 3 gives TxOut as amount
(satoshis, u64) and locking script (hex-displayed blob). -/
structure TxOut where
  amount : Nat
  script_pubkey : List Char
  deriving DecidableEq, Repr

/-- Embedding of lib.rs read_u32: reads (with zero padding, never failing) a
4-byte buffer and interprets it little-endian. -/
def read_u32 (tb : List Nat) : Except IOErr (Nat × List Nat) :=
  let p := readPad 4 tb
  .ok (fromLE p.1, p.2)

/-- Embedding of lib.rs read_compact_size: reads one byte (zero when the
buffer is exhausted), then dispatches on it; the single-byte arm covers
1..=252 and everything not covered by 253/254/255 is an InvalidData error. -/
def read_compact_size (tb : List Nat) : Except IOErr (Nat × List Nat) :=
  let p := readPad 1 tb
  let first_byte := p.1.headD 0
  if 1 ≤ first_byte ∧ first_byte ≤ 252 then .ok (first_byte, p.2)
  else if first_byte = 253 then
    let q := readPad 2 p.2
    .ok (fromLE q.1, q.2)
  else if first_byte = 254 then
    let q := readPad 4 p.2
    .ok (fromLE q.1, q.2)
  else if first_byte = 255 then
    let q := readPad 8 p.2
    .ok (fromLE q.1, q.2)
  else .error ⟨ErrKind.invalidData, "invalid compact size"⟩

/-- Embedding of lib.rs read_txid: reads a 32-byte buffer (zero padded). -/
def read_txid (tb : List Nat) : Except IOErr (List Nat × List Nat) :=
  let p := readPad 32 tb
  .ok (p.1, p.2)

/-- Embedding of lib.rs read_script: compact-size length, then that many raw
bytes (zero padded), exposed as a lowercase hex string. -/
def read_script (tb : List Nat) : Except IOErr (List Char × List Nat) := do
  let s ← read_compact_size tb
  let p := readPad s.1 s.2
  .ok (hexEncode p.1, p.2)

/-- Embedding of lib.rs read_amount: 8 bytes little-endian (zero padded). -/
def read_amount (tb : List Nat) : Except IOErr (Nat × List Nat) :=
  let p := readPad 8 tb
  .ok (fromLE p.1, p.2)

/-- The input-reading loop of lib.rs run, by remaining iteration count. -/
def readInputs : Nat → List Nat → Except IOErr (List TxIn × List Nat)
  | 0, tb => .ok ([], tb)
  | n + 1, tb => do
    let t ← read_txid tb
    let v ← read_u32 t.2
    let s ← read_script v.2
    let q ← read_u32 s.2
    let rest ← readInputs n q.2
    .ok (⟨t.1, v.1, s.1, q.1⟩ :: rest.1, rest.2)

/-- The output-reading loop of lib.rs run, by remaining iteration count. -/
def readOutputs : Nat → List Nat → Except IOErr (List TxOut × List Nat)
  | 0, tb => .ok ([], tb)
  | n + 1, tb => do
    let a ← read_amount tb
    let s ← read_script a.2
    let rest ← readOutputs n s.2
    .ok (⟨a.1, s.1⟩ :: rest.1, rest.2)

/-- The four decoded wire fields of a transaction. -/
structure TxFields where
  version : Nat
  inputs : List TxIn
  outputs : List TxOut
  locktime : Nat
  deriving DecidableEq, Repr

/-- Decode steps 1-4 of lib.rs run: version, inputs, outputs, lock time, in
wire order over a forward-only cursor; returns the fields and the bytes left
unconsumed after the lock time. -/
def decodeFields (tb : List Nat) : Except IOErr (TxFields × List Nat) := do
  let v ← read_u32 tb
  let il ← read_compact_size v.2
  let ins ← readInputs il.1 il.2
  let ol ← read_compact_size ins.2
  let outs ← readOutputs ol.1 ol.2
  let lt ← read_u32 outs.2
  .ok (⟨v.1, ins.1, outs.1, lt.1⟩, lt.2)

/-- Word modulus for 32-bit arithmetic. -/
def M32 : Nat := 4294967296

/-- 32-bit right rotation on a value below M32. -/
def rotr (k n : Nat) : Nat := ((n >>> k) ||| (n <<< (32 - k))) % M32

/-- SHA-256 big Sigma0. Modelled from the spec: the fixed cryptographic hash
of section 4.4 is the sha2 crate Sha256, which is not part of src/; it is
embedded here from its public definition (FIPS 180-4). -/
def bigSigma0 (n : Nat) : Nat := rotr 2 n ^^^ rotr 13 n ^^^ rotr 22 n

/-- SHA-256 big Sigma1. -/
def bigSigma1 (n : Nat) : Nat := rotr 6 n ^^^ rotr 11 n ^^^ rotr 25 n

/-- SHA-256 small sigma0. -/
def smallSigma0 (n : Nat) : Nat := rotr 7 n ^^^ rotr 18 n ^^^ (n >>> 3)

/-- SHA-256 small sigma1. -/
def smallSigma1 (n : Nat) : Nat := rotr 17 n ^^^ rotr 19 n ^^^ (n >>> 10)

/-- SHA-256 choice function. -/
def chFn (e f g : Nat) : Nat := (e &&& f) ^^^ ((e ^^^ 4294967295) &&& g)

/-- SHA-256 majority function. -/
def majFn (a b c : Nat) : Nat := (a &&& b) ^^^ (a &&& c) ^^^ (b &&& c)

/-- The eight 32-bit words of a SHA-256 state. -/
structure Hash8 where
  a : Nat
  b : Nat
  c : Nat
  d : Nat
  e : Nat
  f : Nat
  g : Nat
  h : Nat
  deriving DecidableEq, Repr

/-- The 64 SHA-256 round constants (fractional parts of the cube roots of
the first 64 primes, as 32-bit words). -/
def sha256K : List Nat :=
  [1116352408, 1899447441, 3049323471, 3921009573, 961987163, 1508970993, 2453635748, 2870763221,
   3624381080, 310598401, 607225278, 1426881987, 1925078388, 2162078206, 2614888103, 3248222580,
   3835390401, 4022224774, 264347078, 604807628, 770255983, 1249150122, 1555081692, 1996064986,
   2554220882, 2821834349, 2952996808, 3210313671, 3336571891, 3584528711, 113926993, 338241895,
   666307205, 773529912, 1294757372, 1396182291, 1695183700, 1986661051, 2177026350, 2456956037,
   2730485921, 2820302411, 3259730800, 3345764771, 3516065817, 3600352804, 4094571909, 275423344,
   430227734, 506948616, 659060556, 883997877, 958139571, 1322822218, 1537002063, 1747873779,
   1955562222, 2024104815, 2227730452, 2361852424, 2428436474, 2756734187, 3204031479, 3329325298]

/-- The initial SHA-256 state (fractional parts of the square roots of the
first 8 primes, as 32-bit words). -/
def sha256H0 : Hash8 :=
  ⟨1779033703, 3144134277, 1013904242, 2773480762, 1359893119, 2600822924, 528734635, 1541459225⟩

/-- Big-endian byte decomposition, k bytes. -/
def toBE : Nat → Nat → List Nat
  | 0, _ => []
  | k + 1, v => toBE k (v / 256) ++ [v % 256]

/-- Big-endian byte recomposition. -/
def fromBE (bs : List Nat) : Nat :=
  bs.foldl (fun acc b => 256 * acc + b) 0

/-- SHA-256 padding: a 0x80 byte, zeros to 56 mod 64, then the bit length as
a big-endian u64. -/
def shaPad (msg : List Nat) : List Nat :=
  let r := (msg.length + 1) % 64
  msg ++ 128 :: List.replicate ((120 - r) % 64) 0 ++ toBE 8 (8 * msg.length)

/-- The sixteen 32-bit big-endian words of a 64-byte block. -/
def words16 : List Nat → List Nat
  | b0 :: b1 :: b2 :: b3 :: rest => fromBE [b0, b1, b2, b3] :: words16 rest
  | _ => []

/-- Message-schedule extension loop: appends n further words. -/
def extendGo : List Nat → Nat → List Nat
  | ws, 0 => ws
  | ws, n + 1 =>
    let t := ws.length
    let w := (smallSigma1 (ws.getD (t - 2) 0) + ws.getD (t - 7) 0 +
              smallSigma0 (ws.getD (t - 15) 0) + ws.getD (t - 16) 0) % M32
    extendGo (ws ++ [w]) n

/-- The 64-word message schedule of a block. -/
def schedule (block : List Nat) : List Nat := extendGo (words16 block) 48

/-- One SHA-256 compression round, given the pair (round constant, word). -/
def shaRound (st : Hash8) (kw : Nat × Nat) : Hash8 :=
  let t1 := (st.h + bigSigma1 st.e + chFn st.e st.f st.g + kw.1 + kw.2) % M32
  let t2 := (bigSigma0 st.a + majFn st.a st.b st.c) % M32
  ⟨(t1 + t2) % M32, st.a, st.b, st.c, (st.d + t1) % M32, st.e, st.f, st.g⟩

/-- Process one 64-byte block: 64 rounds, then add into the running state. -/
def processBlock (st : Hash8) (block : List Nat) : Hash8 :=
  let fin := (sha256K.zip (schedule block)).foldl shaRound st
  ⟨(st.a + fin.a) % M32, (st.b + fin.b) % M32, (st.c + fin.c) % M32, (st.d + fin.d) % M32,
   (st.e + fin.e) % M32, (st.f + fin.f) % M32, (st.g + fin.g) % M32, (st.h + fin.h) % M32⟩

/-- Split a byte list into 64-byte chunks; the fuel argument only bounds the
recursion depth and any fuel of at least the list length splits fully. -/
def chunksGo : Nat → List Nat → List (List Nat)
  | 0, _ => []
  | _, [] => []
  | fuel + 1, x :: rest => ((x :: rest).take 64) :: chunksGo fuel ((x :: rest).drop 64)

/-- Split a byte list into 64-byte chunks. -/
def chunks64 (l : List Nat) : List (List Nat) := chunksGo l.length l

/-- SHA-256 of a byte list: pad, compress each block, emit the final state
as 32 big-endian bytes. -/
def sha256 (msg : List Nat) : List Nat :=
  let fin := (chunks64 (shaPad msg)).foldl processBlock sha256H0
  toBE 4 fin.a ++ toBE 4 fin.b ++ toBE 4 fin.c ++ toBE 4 fin.d ++
  toBE 4 fin.e ++ toBE 4 fin.f ++ toBE 4 fin.g ++ toBE 4 fin.h

/-- Embedding of lib.rs hash_transaction: one Sha256 pass over the raw bytes,
then a second pass over the first digest. -/
def hash_transaction (raw : List Nat) : List Nat :=
  let hash1 := sha256 raw
  let hash2 := sha256 hash1
  hash2

/-- Embedding of transaction.rs Txid::new: the same double Sha256. -/
def Txid.new (data : List Nat) : List Nat :=
  let hash1 := sha256 data
  let hash2 := sha256 hash1
  hash2

/-- Embedding of Serialize for Txid in transaction.rs: clone the 32 bytes,
reverse them, hex-encode. -/
def serializeTxid (t : List Nat) : List Char := hexEncode t.reverse

/-- The structure lib.rs run serialises to JSON (the JSON rendering itself is
the out-of-scope presentation adapter; the decoded values are modelled). -/
structure RunOut where
  version : Nat
  inputs : List TxIn
  outputs : List TxOut
  locktime : Nat
  transaction_id : List Nat
  deriving DecidableEq, Repr

/-- Byte-level body of lib.rs run: decode steps 1-4, then derive the
identifier by hashing the WHOLE input buffer (line 145 passes
transaction_bytes, not the consumed prefix). -/
def runBytes (tb : List Nat) : Except IOErr RunOut := do
  let f ← decodeFields tb
  let transaction_id := hash_transaction tb
  .ok ⟨f.1.version, f.1.inputs, f.1.outputs, f.1.locktime, transaction_id⟩

/-- Error type of lib.rs run (Box of dyn Error): either the mapped hex
decoding message or a propagated io error. -/
inductive RunErr where
  | hexError
  | ioError (e : IOErr)
  deriving DecidableEq, Repr

/-- Embedding of lib.rs run: hex-decode the argument, then decode and hash. -/
def run (s : List Char) : Except RunErr RunOut :=
  match hexDecode s with
  | none => .error RunErr.hexError
  | some tb => (runBytes tb).mapError RunErr.ioError

/-- Embedding of main.rs read_compact_size (the earlier snapshot of the same
codec): identical dispatch, but the fall-through arm is a literal panic,
modelled as none. -/
def mainReadCompactSize (tb : List Nat) : Option (Nat × List Nat) :=
  let p := readPad 1 tb
  let first_byte := p.1.headD 0
  if 1 ≤ first_byte ∧ first_byte ≤ 252 then some (first_byte, p.2)
  else if first_byte = 253 then
    let q := readPad 2 p.2
    some (fromLE q.1, q.2)
  else if first_byte = 254 then
    let q := readPad 4 p.2
    some (fromLE q.1, q.2)
  else if first_byte = 255 then
    let q := readPad 8 p.2
    some (fromLE q.1, q.2)
  else none

/-- Embedding of transaction.rs Decodable for u8. -/
def U8.consensus_decode (l : List Nat) : Except IOErr (Nat × List Nat) := do
  let p ← readExact 1 l
  .ok (p.1.headD 0, p.2)

/-- Embedding of transaction.rs Decodable for u16. -/
def U16.consensus_decode (l : List Nat) : Except IOErr (Nat × List Nat) := do
  let p ← readExact 2 l
  .ok (fromLE p.1, p.2)

/-- Embedding of transaction.rs Decodable for u32. -/
def U32.consensus_decode (l : List Nat) : Except IOErr (Nat × List Nat) := do
  let p ← readExact 4 l
  .ok (fromLE p.1, p.2)

/-- Embedding of transaction.rs Decodable for u64. -/
def U64.consensus_decode (l : List Nat) : Except IOErr (Nat × List Nat) := do
  let p ← readExact 8 l
  .ok (fromLE p.1, p.2)

/-- Embedding of transaction.rs Decodable for Version (a u32 newtype,
modelled as the underlying Nat). -/
def Version.consensus_decode (l : List Nat) : Except IOErr (Nat × List Nat) :=
  U32.consensus_decode l

/-- Embedding of transaction.rs Decodable for Txid: exactly 32 raw bytes. -/
def Txid.consensus_decode (l : List Nat) : Except IOErr (List Nat × List Nat) :=
  readExact 32 l

/-- Embedding of transaction.rs Decodable for CompactSize: one byte, then
the 1..=252 / 253 / 254 / 255 dispatch; the fall-through arm (reachable for
byte 0) is an InvalidInput error. -/
def CompactSize.consensus_decode (l : List Nat) : Except IOErr (Nat × List Nat) := do
  let n ← U8.consensus_decode l
  if 1 ≤ n.1 ∧ n.1 ≤ 252 then .ok (n.1, n.2)
  else if n.1 = 253 then do
    let x ← U16.consensus_decode n.2
    .ok (x.1, x.2)
  else if n.1 = 254 then do
    let x ← U32.consensus_decode n.2
    .ok (x.1, x.2)
  else if n.1 = 255 then do
    let x ← U64.consensus_decode n.2
    .ok (x.1, x.2)
  else .error ⟨ErrKind.invalidInput, "Compact size error: invalid compact size"⟩

/-- Embedding of transaction.rs Decodable for String (the byte-blob codec):
compact-size length, then exactly that many raw bytes, hex-encoded. -/
def String.consensus_decode (l : List Nat) : Except IOErr (List Char × List Nat) := do
  let sz ← CompactSize.consensus_decode l
  let p ← readExact sz.1 sz.2
  .ok (hexEncode p.1, p.2)

/-- Embedding of transaction.rs Decodable for TxIn. -/
def TxIn.consensus_decode (l : List Nat) : Except IOErr (TxIn × List Nat) := do
  let t ← Txid.consensus_decode l
  let v ← U32.consensus_decode t.2
  let s ← String.consensus_decode v.2
  let q ← U32.consensus_decode s.2
  .ok (⟨t.1, v.1, s.1, q.1⟩, q.2)

/-- The element loop of Decodable for Vec of TxIn, by remaining count. -/
def TxIn.decodeList : Nat → List Nat → Except IOErr (List TxIn × List Nat)
  | 0, l => .ok ([], l)
  | n + 1, l => do
    let i ← TxIn.consensus_decode l
    let rest ← TxIn.decodeList n i.2
    .ok (i.1 :: rest.1, rest.2)

/-- Embedding of transaction.rs Decodable for Vec of TxIn. -/
def VecTxIn.consensus_decode (l : List Nat) : Except IOErr (List TxIn × List Nat) := do
  let len ← CompactSize.consensus_decode l
  TxIn.decodeList len.1 len.2

/-- Embedding of transaction.rs Decodable for TxOut. -/
def TxOut.consensus_decode (l : List Nat) : Except IOErr (TxOut × List Nat) := do
  let a ← U64.consensus_decode l
  let s ← String.consensus_decode a.2
  .ok (⟨a.1, s.1⟩, s.2)

/-- The element loop of Decodable for Vec of TxOut, by remaining count. -/
def TxOut.decodeList : Nat → List Nat → Except IOErr (List TxOut × List Nat)
  | 0, l => .ok ([], l)
  | n + 1, l => do
    let o ← TxOut.consensus_decode l
    let rest ← TxOut.decodeList n o.2
    .ok (o.1 :: rest.1, rest.2)

/-- Embedding of transaction.rs Decodable for Vec of TxOut. -/
def VecTxOut.consensus_decode (l : List Nat) : Except IOErr (List TxOut × List Nat) := do
  let len ← CompactSize.consensus_decode l
  TxOut.decodeList len.1 len.2

/-- The transaction.rs Transaction structure (Version modelled as Nat). -/
structure Transaction where
  version : Nat
  inputs : List TxIn
  outputs : List TxOut
  lock_time : Nat
  deriving DecidableEq, Repr

/-- Embedding of transaction.rs Decodable for Transaction: the four fields
in wire order, each sub-decode propagating its failure. -/
def Transaction.consensus_decode (l : List Nat) : Except IOErr (Transaction × List Nat) := do
  let v ← Version.consensus_decode l
  let ins ← VecTxIn.consensus_decode v.2
  let outs ← VecTxOut.consensus_decode ins.2
  let lt ← U32.consensus_decode outs.2
  .ok (⟨v.1, ins.1, outs.1, lt.1⟩, lt.2)

/-- Embedding of transaction.rs Encodable for u8: append one byte (the value
is a u8, kept in range by reduction mod 256); returns the new writer contents
and the written length. -/
def U8.consensus_encode (v : Nat) (w : List Nat) : List Nat × Nat :=
  (w ++ [v % 256], 1)

/-- Embedding of transaction.rs Encodable for u16: two little-endian bytes. -/
def U16.consensus_encode (v : Nat) (w : List Nat) : List Nat × Nat :=
  (w ++ toLE 2 (v % 65536), 2)

/-- Embedding of transaction.rs Encodable for u32: four little-endian bytes. -/
def U32.consensus_encode (v : Nat) (w : List Nat) : List Nat × Nat :=
  (w ++ toLE 4 (v % 4294967296), 4)

/-- Embedding of transaction.rs Encodable for u64: eight little-endian bytes. -/
def U64.consensus_encode (v : Nat) (w : List Nat) : List Nat × Nat :=
  (w ++ toLE 8 (v % 18446744073709551616), 8)

/-- Embedding of transaction.rs Encodable for Version. -/
def Version.consensus_encode (v : Nat) (w : List Nat) : List Nat × Nat :=
  U32.consensus_encode v w

/-- Embedding of transaction.rs Encodable for Amount. -/
def Amount.consensus_encode (v : Nat) (w : List Nat) : List Nat × Nat :=
  U64.consensus_encode v w

/-- Embedding of transaction.rs Encodable for Txid: write the raw bytes. -/
def Txid.consensus_encode (t : List Nat) (w : List Nat) : List Nat × Nat :=
  (w ++ t, t.length)

/-- Embedding of transaction.rs Encodable for CompactSize: minimal prefix
selection over the four ranges; the casts (val as u8 / u16 / u32) are the
explicit reductions. -/
def CompactSize.consensus_encode (val : Nat) (w : List Nat) : List Nat × Nat :=
  if val ≤ 252 then
    let p := U8.consensus_encode (val % 256) w
    (p.1, 1)
  else if val ≤ 65535 then
    let p := U16.consensus_encode (val % 65536) (w ++ [253])
    (p.1, 3)
  else if val ≤ 4294967295 then
    let p := U32.consensus_encode (val % 4294967296) (w ++ [254])
    (p.1, 5)
  else
    let p := U64.consensus_encode val (w ++ [255])
    (p.1, 9)

/-- Embedding of transaction.rs Encodable for String: hex::decode with
.expect (a panic, modelled as none, when the string is not valid hex), then
CompactSize of the byte length followed by the raw bytes. -/
def String.consensus_encode (s : List Char) (w : List Nat) : Option (List Nat × Nat) :=
  match hexDecode s with
  | none => none
  | some b =>
    let p := CompactSize.consensus_encode b.length w
    some (p.1 ++ b, p.2 + b.length)

/-- Embedding of transaction.rs Encodable for TxIn. -/
def TxIn.consensus_encode (i : TxIn) (w : List Nat) : Option (List Nat × Nat) := do
  let p1 := Txid.consensus_encode i.previous_txid w
  let p2 := U32.consensus_encode i.previous_vout p1.1
  let p3 ← String.consensus_encode i.script_sig p2.1
  let p4 := U32.consensus_encode i.sequence p3.1
  some (p4.1, p1.2 + p2.2 + p3.2 + p4.2)

/-- The element loop of Encodable for Vec of TxIn. -/
def TxIn.encodeList : List TxIn → List Nat → Option (List Nat × Nat)
  | [], w => some (w, 0)
  | i :: rest, w => do
    let p ← TxIn.consensus_encode i w
    let q ← TxIn.encodeList rest p.1
    some (q.1, p.2 + q.2)

/-- Embedding of transaction.rs Encodable for Vec of TxIn: CompactSize count
then each element. -/
def VecTxIn.consensus_encode (is : List TxIn) (w : List Nat) : Option (List Nat × Nat) := do
  let c := CompactSize.consensus_encode is.length w
  let q ← TxIn.encodeList is c.1
  some (q.1, c.2 + q.2)

/-- Embedding of transaction.rs Encodable for TxOut. -/
def TxOut.consensus_encode (o : TxOut) (w : List Nat) : Option (List Nat × Nat) := do
  let p1 := Amount.consensus_encode o.amount w
  let p2 ← String.consensus_encode o.script_pubkey p1.1
  some (p2.1, p1.2 + p2.2)

/-- The element loop of Encodable for Vec of TxOut. -/
def TxOut.encodeList : List TxOut → List Nat → Option (List Nat × Nat)
  | [], w => some (w, 0)
  | o :: rest, w => do
    let p ← TxOut.consensus_encode o w
    let q ← TxOut.encodeList rest p.1
    some (q.1, p.2 + q.2)

/-- Embedding of transaction.rs Encodable for Vec of TxOut. -/
def VecTxOut.consensus_encode (os : List TxOut) (w : List Nat) : Option (List Nat × Nat) := do
  let c := CompactSize.consensus_encode os.length w
  let q ← TxOut.encodeList os c.1
  some (q.1, c.2 + q.2)

/-- Embedding of transaction.rs Transaction::txid: re-serialise the four
fields into txid_data in wire order (the unwraps can only fire through the
String-encode panic, kept as the Option layer) and double-hash the result. -/
def Transaction.txid (t : Transaction) : Option (List Nat) := do
  let p1 := Version.consensus_encode t.version []
  let p2 ← VecTxIn.consensus_encode t.inputs p1.1
  let p3 ← VecTxOut.consensus_encode t.outputs p2.1
  let p4 := U32.consensus_encode t.lock_time p3.1
  some (Txid.new p4.1)

/-- A concrete 62-byte valid transaction encoding: version 1, one input
(zero previous id, vout 0, one-byte script 0xAB, sequence 0xFFFFFFFF), one
output (amount 0, one-byte script 0xCD), lock time 0. -/
def tx62 : List Nat :=
  [1, 0, 0, 0] ++ [1] ++ List.replicate 32 0 ++ [0, 0, 0, 0] ++ [1, 171] ++
  [255, 255, 255, 255] ++ [1] ++ [0, 0, 0, 0, 0, 0, 0, 0] ++ [1, 205] ++ [0, 0, 0, 0]


theorem bind_ok_iff {ε α β : Type} (x : Except ε α) (f : α → Except ε β) (b : β) :
    (x >>= f) = .ok b ↔ ∃ a, x = .ok a ∧ f a = .ok b := by
  cases x <;> simp [Bind.bind, Except.bind]

theorem bind_error_iff {ε α β : Type} (x : Except ε α) (f : α → Except ε β) (e : ε) :
    (x >>= f) = .error e ↔ x = .error e ∨ ∃ a, x = .ok a ∧ f a = .error e := by
  cases x <;> simp [Bind.bind, Except.bind]

theorem toLE_length (k v : Nat) : (toLE k v).length = k := by
  induction k generalizing v with
  | zero => rfl
  | succ k ih => simp [toLE, ih]

theorem toBE_length (k v : Nat) : (toBE k v).length = k := by
  induction k generalizing v with
  | zero => rfl
  | succ k ih => simp [toBE, ih]

theorem fromLE_nil : fromLE [] = 0 := rfl

theorem fromLE_cons (b : Nat) (bs : List Nat) : fromLE (b :: bs) = b + 256 * fromLE bs := rfl

theorem fromLE_toLE (k v : Nat) : fromLE (toLE k v) = v % 2 ^ (8 * k) := by
  induction k generalizing v with
  | zero => simp [toLE, fromLE, Nat.mod_one]
  | succ k ih =>
    have h2 : (2 : Nat) ^ (8 * (k + 1)) = 256 * 2 ^ (8 * k) := by
      rw [Nat.mul_succ, pow_add]; ring
    rw [toLE, fromLE_cons, ih, h2, Nat.mod_mul]

theorem sha256_length (msg : List Nat) : (sha256 msg).length = 32 := by
  simp [sha256, toBE_length]

theorem readExact_ok_iff (n : Nat) (l b r : List Nat) :
    readExact n l = .ok (b, r) ↔ n ≤ l.length ∧ b = l.take n ∧ r = l.drop n := by
  unfold readExact
  split <;> simp_all [eq_comm]

theorem readExact_append {n : Nat} {l b r : List Nat} (e : List Nat)
    (h : readExact n l = .ok (b, r)) : readExact n (l ++ e) = .ok (b, r ++ e) := by
  rw [readExact_ok_iff] at h ⊢
  obtain ⟨hn, hb, hr⟩ := h
  refine ⟨by simp; omega, ?_, ?_⟩
  · rw [List.take_append_of_le_length hn, hb]
  · rw [List.drop_append_of_le_length hn, hr]

theorem readPad_of_le {n : Nat} {l : List Nat} (h : n ≤ l.length) :
    readPad n l = (l.take n, l.drop n) := by
  simp [readPad, Nat.sub_eq_zero_of_le h]

theorem read_u32_of_exact {l : List Nat} {v : Nat} {r : List Nat}
    (h : U32.consensus_decode l = .ok (v, r)) : read_u32 l = .ok (v, r) := by
  unfold U32.consensus_decode at h
  rw [bind_ok_iff] at h
  obtain ⟨⟨b, r2⟩, hp, he⟩ := h
  rw [readExact_ok_iff] at hp
  obtain ⟨hlen, hb, hr⟩ := hp
  simp only [Except.ok.injEq, Prod.mk.injEq] at he
  obtain ⟨hv, hre⟩ := he
  unfold read_u32
  rw [readPad_of_le hlen]
  simp [← hv, ← hre, hb, hr]

theorem read_amount_of_exact {l : List Nat} {v : Nat} {r : List Nat}
    (h : U64.consensus_decode l = .ok (v, r)) : read_amount l = .ok (v, r) := by
  unfold U64.consensus_decode at h
  rw [bind_ok_iff] at h
  obtain ⟨⟨b, r2⟩, hp, he⟩ := h
  rw [readExact_ok_iff] at hp
  obtain ⟨hlen, hb, hr⟩ := hp
  simp only [Except.ok.injEq, Prod.mk.injEq] at he
  obtain ⟨hv, hre⟩ := he
  unfold read_amount
  rw [readPad_of_le hlen]
  simp [← hv, ← hre, hb, hr]

theorem read_txid_of_exact {l b r : List Nat}
    (h : Txid.consensus_decode l = .ok (b, r)) : read_txid l = .ok (b, r) := by
  unfold Txid.consensus_decode at h
  rw [readExact_ok_iff] at h
  obtain ⟨hlen, hb, hr⟩ := h
  unfold read_txid
  rw [readPad_of_le hlen]
  simp [hb, hr]

theorem readPad_one_cons (x : Nat) (xs : List Nat) : readPad 1 (x :: xs) = ([x], xs) := by
  have h : 1 - (xs.length + 1) = 0 := by omega
  simp [readPad, h]

theorem read_cs_of_exact {l : List Nat} {v : Nat} {r : List Nat}
    (h : CompactSize.consensus_decode l = .ok (v, r)) : read_compact_size l = .ok (v, r) := by
  unfold CompactSize.consensus_decode at h
  rw [bind_ok_iff] at h
  obtain ⟨⟨n, r1⟩, hn, hrest⟩ := h
  dsimp only at hrest
  unfold U8.consensus_decode at hn
  rw [bind_ok_iff] at hn
  obtain ⟨⟨b1, r2⟩, hp, he⟩ := hn
  rw [readExact_ok_iff] at hp
  obtain ⟨hlen, hb1, hr2⟩ := hp
  simp only [Except.ok.injEq, Prod.mk.injEq] at he
  obtain ⟨hne, hr1e⟩ := he
  cases l with
  | nil => simp at hlen
  | cons x xs =>
    have hb1x : b1 = [x] := by rw [hb1]; simp
    have hx : n = x := by rw [← hne, hb1x]; rfl
    have hr1x : r1 = xs := by rw [← hr1e, hr2]; rfl
    subst hx hr1x
    unfold read_compact_size
    rw [readPad_one_cons]
    dsimp only [List.headD]
    split at hrest
    case isTrue hc =>
      rw [if_pos hc]
      exact hrest
    case isFalse hc =>
      rw [if_neg hc]
      split at hrest
      case isTrue hc2 =>
        rw [if_pos hc2]
        rw [bind_ok_iff] at hrest
        obtain ⟨⟨w, r3⟩, hw, hwe⟩ := hrest
        unfold U16.consensus_decode at hw
        rw [bind_ok_iff] at hw
        obtain ⟨⟨bb, r4⟩, hq, hqe⟩ := hw
        rw [readExact_ok_iff] at hq
        obtain ⟨hlen2, hbb, hr4⟩ := hq
        simp only [Except.ok.injEq, Prod.mk.injEq] at hqe hwe
        rw [readPad_of_le hlen2]
        simp only [Except.ok.injEq, Prod.mk.injEq]
        obtain ⟨hw1, hw2⟩ := hqe
        obtain ⟨hv1, hv2⟩ := hwe
        subst hbb hr4
        exact ⟨by rw [← hv1, ← hw1], by rw [← hv2, ← hw2]⟩
      case isFalse hc2 =>
        rw [if_neg hc2]
        split at hrest
        case isTrue hc3 =>
          rw [if_pos hc3]
          rw [bind_ok_iff] at hrest
          obtain ⟨⟨w, r3⟩, hw, hwe⟩ := hrest
          unfold U32.consensus_decode at hw
          rw [bind_ok_iff] at hw
          obtain ⟨⟨bb, r4⟩, hq, hqe⟩ := hw
          rw [readExact_ok_iff] at hq
          obtain ⟨hlen2, hbb, hr4⟩ := hq
          simp only [Except.ok.injEq, Prod.mk.injEq] at hqe hwe
          rw [readPad_of_le hlen2]
          simp only [Except.ok.injEq, Prod.mk.injEq]
          obtain ⟨hw1, hw2⟩ := hqe
          obtain ⟨hv1, hv2⟩ := hwe
          subst hbb hr4
          exact ⟨by rw [← hv1, ← hw1], by rw [← hv2, ← hw2]⟩
        case isFalse hc3 =>
          rw [if_neg hc3]
          split at hrest
          case isTrue hc4 =>
            rw [if_pos hc4]
            rw [bind_ok_iff] at hrest
            obtain ⟨⟨w, r3⟩, hw, hwe⟩ := hrest
            unfold U64.consensus_decode at hw
            rw [bind_ok_iff] at hw
            obtain ⟨⟨bb, r4⟩, hq, hqe⟩ := hw
            rw [readExact_ok_iff] at hq
            obtain ⟨hlen2, hbb, hr4⟩ := hq
            simp only [Except.ok.injEq, Prod.mk.injEq] at hqe hwe
            rw [readPad_of_le hlen2]
            simp only [Except.ok.injEq, Prod.mk.injEq]
            obtain ⟨hw1, hw2⟩ := hqe
            obtain ⟨hv1, hv2⟩ := hwe
            subst hbb hr4
            exact ⟨by rw [← hv1, ← hw1], by rw [← hv2, ← hw2]⟩
          case isFalse hc4 =>
            exact absurd hrest (by simp)

theorem read_script_of_exact {l : List Nat} {s : List Char} {r : List Nat}
    (h : String.consensus_decode l = .ok (s, r)) : read_script l = .ok (s, r) := by
  unfold String.consensus_decode at h
  rw [bind_ok_iff] at h
  obtain ⟨⟨sz, r1⟩, hsz, hrest⟩ := h
  dsimp only at hrest
  rw [bind_ok_iff] at hrest
  obtain ⟨⟨bs, r2⟩, hb, hbe⟩ := hrest
  rw [readExact_ok_iff] at hb
  obtain ⟨hlen, hbs, hr2⟩ := hb
  simp only [Except.ok.injEq, Prod.mk.injEq] at hbe
  unfold read_script
  rw [bind_ok_iff]
  refine ⟨(sz, r1), read_cs_of_exact hsz, ?_⟩
  dsimp only
  rw [readPad_of_le hlen]
  simp only [Except.ok.injEq, Prod.mk.injEq]
  exact ⟨by rw [← hbe.1, hbs], by rw [← hbe.2, hr2]⟩

theorem readInputs_of_exact : ∀ (n : Nat) {l : List Nat} {is : List TxIn} {r : List Nat},
    TxIn.decodeList n l = .ok (is, r) → readInputs n l = .ok (is, r)
  | 0, l, is, r, h => by
    unfold TxIn.decodeList at h
    unfold readInputs
    exact h
  | n + 1, l, is, r, h => by
    unfold TxIn.decodeList at h
    rw [bind_ok_iff] at h
    obtain ⟨⟨i, r1⟩, hi, hrest⟩ := h
    dsimp only at hrest
    rw [bind_ok_iff] at hrest
    obtain ⟨⟨tl, r2⟩, htl, hte⟩ := hrest
    simp only [Except.ok.injEq, Prod.mk.injEq] at hte
    unfold TxIn.consensus_decode at hi
    rw [bind_ok_iff] at hi
    obtain ⟨⟨t, ra⟩, ht, hi⟩ := hi
    dsimp only at hi
    rw [bind_ok_iff] at hi
    obtain ⟨⟨v, rb⟩, hv, hi⟩ := hi
    dsimp only at hi
    rw [bind_ok_iff] at hi
    obtain ⟨⟨s, rc⟩, hs, hi⟩ := hi
    dsimp only at hi
    rw [bind_ok_iff] at hi
    obtain ⟨⟨q, rd⟩, hq, hi⟩ := hi
    dsimp only at hi
    simp only [Except.ok.injEq, Prod.mk.injEq] at hi
    unfold readInputs
    rw [bind_ok_iff]
    refine ⟨(t, ra), read_txid_of_exact ht, ?_⟩
    dsimp only
    rw [bind_ok_iff]
    refine ⟨(v, rb), read_u32_of_exact hv, ?_⟩
    dsimp only
    rw [bind_ok_iff]
    refine ⟨(s, rc), read_script_of_exact hs, ?_⟩
    dsimp only
    rw [bind_ok_iff]
    refine ⟨(q, rd), read_u32_of_exact hq, ?_⟩
    dsimp only
    rw [bind_ok_iff]
    refine ⟨(tl, r2), ?_, ?_⟩
    · rw [hi.2]
      exact readInputs_of_exact n htl
    · dsimp only
      simp only [Except.ok.injEq, Prod.mk.injEq]
      exact ⟨by rw [← hte.1, hi.1], hte.2⟩

theorem readOutputs_of_exact : ∀ (n : Nat) {l : List Nat} {os : List TxOut} {r : List Nat},
    TxOut.decodeList n l = .ok (os, r) → readOutputs n l = .ok (os, r)
  | 0, l, os, r, h => by
    unfold TxOut.decodeList at h
    unfold readOutputs
    exact h
  | n + 1, l, os, r, h => by
    unfold TxOut.decodeList at h
    rw [bind_ok_iff] at h
    obtain ⟨⟨o, r1⟩, ho, hrest⟩ := h
    dsimp only at hrest
    rw [bind_ok_iff] at hrest
    obtain ⟨⟨tl, r2⟩, htl, hte⟩ := hrest
    simp only [Except.ok.injEq, Prod.mk.injEq] at hte
    unfold TxOut.consensus_decode at ho
    rw [bind_ok_iff] at ho
    obtain ⟨⟨a, ra⟩, ha, ho⟩ := ho
    dsimp only at ho
    rw [bind_ok_iff] at ho
    obtain ⟨⟨s, rb⟩, hs, ho⟩ := ho
    dsimp only at ho
    simp only [Except.ok.injEq, Prod.mk.injEq] at ho
    unfold readOutputs
    rw [bind_ok_iff]
    refine ⟨(a, ra), read_amount_of_exact ha, ?_⟩
    dsimp only
    rw [bind_ok_iff]
    refine ⟨(s, rb), read_script_of_exact hs, ?_⟩
    dsimp only
    rw [bind_ok_iff]
    refine ⟨(tl, r2), ?_, ?_⟩
    · rw [ho.2]
      exact readOutputs_of_exact n htl
    · dsimp only
      simp only [Except.ok.injEq, Prod.mk.injEq]
      exact ⟨by rw [← hte.1, ho.1], hte.2⟩

theorem decodeFields_of_exact {l : List Nat} {t : Transaction} {r : List Nat}
    (h : Transaction.consensus_decode l = .ok (t, r)) :
    decodeFields l = .ok (⟨t.version, t.inputs, t.outputs, t.lock_time⟩, r) := by
  unfold Transaction.consensus_decode at h
  rw [bind_ok_iff] at h
  obtain ⟨⟨v, r1⟩, hv, h⟩ := h
  dsimp only at h
  rw [bind_ok_iff] at h
  obtain ⟨⟨ins, r2⟩, hins, h⟩ := h
  dsimp only at h
  rw [bind_ok_iff] at h
  obtain ⟨⟨outs, r3⟩, houts, h⟩ := h
  dsimp only at h
  rw [bind_ok_iff] at h
  obtain ⟨⟨lt, r4⟩, hlt, h⟩ := h
  dsimp only at h
  simp only [Except.ok.injEq, Prod.mk.injEq] at h
  unfold VecTxIn.consensus_decode at hins
  rw [bind_ok_iff] at hins
  obtain ⟨⟨ilen, ra⟩, hilen, hins⟩ := hins
  unfold VecTxOut.consensus_decode at houts
  rw [bind_ok_iff] at houts
  obtain ⟨⟨olen, rb⟩, holen, houts⟩ := houts
  unfold decodeFields
  rw [bind_ok_iff]
  refine ⟨(v, r1), read_u32_of_exact hv, ?_⟩
  dsimp only
  rw [bind_ok_iff]
  refine ⟨(ilen, ra), read_cs_of_exact hilen, ?_⟩
  dsimp only
  rw [bind_ok_iff]
  refine ⟨(ins, r2), readInputs_of_exact ilen hins, ?_⟩
  dsimp only
  rw [bind_ok_iff]
  refine ⟨(olen, rb), read_cs_of_exact holen, ?_⟩
  dsimp only
  rw [bind_ok_iff]
  refine ⟨(outs, r3), readOutputs_of_exact olen houts, ?_⟩
  dsimp only
  rw [bind_ok_iff]
  refine ⟨(lt, r4), read_u32_of_exact hlt, ?_⟩
  dsimp only
  simp only [Except.ok.injEq, Prod.mk.injEq]
  rw [← h.1]
  exact ⟨rfl, h.2⟩

theorem U8_decode_append {l : List Nat} {v : Nat} {r : List Nat} (e : List Nat)
    (h : U8.consensus_decode l = .ok (v, r)) : U8.consensus_decode (l ++ e) = .ok (v, r ++ e) := by
  unfold U8.consensus_decode at h ⊢
  rw [bind_ok_iff] at h ⊢
  obtain ⟨p, hp, he⟩ := h
  refine ⟨(p.1, p.2 ++ e), readExact_append e hp, ?_⟩
  dsimp only
  simp only [Except.ok.injEq, Prod.mk.injEq] at he ⊢
  exact ⟨he.1, by rw [he.2]⟩

theorem U16_decode_append {l : List Nat} {v : Nat} {r : List Nat} (e : List Nat)
    (h : U16.consensus_decode l = .ok (v, r)) : U16.consensus_decode (l ++ e) = .ok (v, r ++ e) := by
  unfold U16.consensus_decode at h ⊢
  rw [bind_ok_iff] at h ⊢
  obtain ⟨p, hp, he⟩ := h
  refine ⟨(p.1, p.2 ++ e), readExact_append e hp, ?_⟩
  dsimp only
  simp only [Except.ok.injEq, Prod.mk.injEq] at he ⊢
  exact ⟨he.1, by rw [he.2]⟩

theorem U32_decode_append {l : List Nat} {v : Nat} {r : List Nat} (e : List Nat)
    (h : U32.consensus_decode l = .ok (v, r)) : U32.consensus_decode (l ++ e) = .ok (v, r ++ e) := by
  unfold U32.consensus_decode at h ⊢
  rw [bind_ok_iff] at h ⊢
  obtain ⟨p, hp, he⟩ := h
  refine ⟨(p.1, p.2 ++ e), readExact_append e hp, ?_⟩
  dsimp only
  simp only [Except.ok.injEq, Prod.mk.injEq] at he ⊢
  exact ⟨he.1, by rw [he.2]⟩

theorem U64_decode_append {l : List Nat} {v : Nat} {r : List Nat} (e : List Nat)
    (h : U64.consensus_decode l = .ok (v, r)) : U64.consensus_decode (l ++ e) = .ok (v, r ++ e) := by
  unfold U64.consensus_decode at h ⊢
  rw [bind_ok_iff] at h ⊢
  obtain ⟨p, hp, he⟩ := h
  refine ⟨(p.1, p.2 ++ e), readExact_append e hp, ?_⟩
  dsimp only
  simp only [Except.ok.injEq, Prod.mk.injEq] at he ⊢
  exact ⟨he.1, by rw [he.2]⟩

theorem cs_decode_append {l : List Nat} {v : Nat} {r : List Nat} (e : List Nat)
    (h : CompactSize.consensus_decode l = .ok (v, r)) :
    CompactSize.consensus_decode (l ++ e) = .ok (v, r ++ e) := by
  unfold CompactSize.consensus_decode at h ⊢
  rw [bind_ok_iff] at h ⊢
  obtain ⟨⟨n, r1⟩, hn, hrest⟩ := h
  refine ⟨(n, r1 ++ e), U8_decode_append e hn, ?_⟩
  dsimp only at hrest ⊢
  split at hrest
  case isTrue hc =>
    rw [if_pos hc]
    simp only [Except.ok.injEq, Prod.mk.injEq] at hrest ⊢
    exact ⟨hrest.1, by rw [hrest.2]⟩
  case isFalse hc =>
    rw [if_neg hc]
    split at hrest
    case isTrue hc2 =>
      rw [if_pos hc2]
      rw [bind_ok_iff] at hrest ⊢
      obtain ⟨p, hp, he⟩ := hrest
      refine ⟨(p.1, p.2 ++ e), U16_decode_append e hp, ?_⟩
      dsimp only
      simp only [Except.ok.injEq, Prod.mk.injEq] at he ⊢
      exact ⟨he.1, by rw [he.2]⟩
    case isFalse hc2 =>
      rw [if_neg hc2]
      split at hrest
      case isTrue hc3 =>
        rw [if_pos hc3]
        rw [bind_ok_iff] at hrest ⊢
        obtain ⟨p, hp, he⟩ := hrest
        refine ⟨(p.1, p.2 ++ e), U32_decode_append e hp, ?_⟩
        dsimp only
        simp only [Except.ok.injEq, Prod.mk.injEq] at he ⊢
        exact ⟨he.1, by rw [he.2]⟩
      case isFalse hc3 =>
        rw [if_neg hc3]
        split at hrest
        case isTrue hc4 =>
          rw [if_pos hc4]
          rw [bind_ok_iff] at hrest ⊢
          obtain ⟨p, hp, he⟩ := hrest
          refine ⟨(p.1, p.2 ++ e), U64_decode_append e hp, ?_⟩
          dsimp only
          simp only [Except.ok.injEq, Prod.mk.injEq] at he ⊢
          exact ⟨he.1, by rw [he.2]⟩
        case isFalse hc4 =>
          exact absurd hrest (by simp)

theorem txid_decode_append {l b r : List Nat} (e : List Nat)
    (h : Txid.consensus_decode l = .ok (b, r)) :
    Txid.consensus_decode (l ++ e) = .ok (b, r ++ e) := by
  unfold Txid.consensus_decode at h ⊢
  exact readExact_append e h

theorem string_decode_append {l : List Nat} {s : List Char} {r : List Nat} (e : List Nat)
    (h : String.consensus_decode l = .ok (s, r)) :
    String.consensus_decode (l ++ e) = .ok (s, r ++ e) := by
  unfold String.consensus_decode at h ⊢
  rw [bind_ok_iff] at h ⊢
  obtain ⟨⟨sz, r1⟩, hsz, hrest⟩ := h
  refine ⟨(sz, r1 ++ e), cs_decode_append e hsz, ?_⟩
  dsimp only at hrest ⊢
  rw [bind_ok_iff] at hrest ⊢
  obtain ⟨p, hp, he⟩ := hrest
  refine ⟨(p.1, p.2 ++ e), readExact_append e hp, ?_⟩
  dsimp only
  simp only [Except.ok.injEq, Prod.mk.injEq] at he ⊢
  exact ⟨he.1, by rw [he.2]⟩

theorem txin_decode_append {l : List Nat} {i : TxIn} {r : List Nat} (e : List Nat)
    (h : TxIn.consensus_decode l = .ok (i, r)) :
    TxIn.consensus_decode (l ++ e) = .ok (i, r ++ e) := by
  unfold TxIn.consensus_decode at h ⊢
  rw [bind_ok_iff] at h ⊢
  obtain ⟨⟨t, ra⟩, ht, h⟩ := h
  refine ⟨(t, ra ++ e), txid_decode_append e ht, ?_⟩
  dsimp only at h ⊢
  rw [bind_ok_iff] at h ⊢
  obtain ⟨⟨v, rb⟩, hv, h⟩ := h
  refine ⟨(v, rb ++ e), U32_decode_append e hv, ?_⟩
  dsimp only at h ⊢
  rw [bind_ok_iff] at h ⊢
  obtain ⟨⟨s, rc⟩, hs, h⟩ := h
  refine ⟨(s, rc ++ e), string_decode_append e hs, ?_⟩
  dsimp only at h ⊢
  rw [bind_ok_iff] at h ⊢
  obtain ⟨⟨q, rd⟩, hq, h⟩ := h
  refine ⟨(q, rd ++ e), U32_decode_append e hq, ?_⟩
  dsimp only at h ⊢
  simp only [Except.ok.injEq, Prod.mk.injEq] at h ⊢
  exact ⟨h.1, by rw [h.2]⟩

theorem txin_decodeList_append : ∀ (n : Nat) {l : List Nat} {is : List TxIn} {r : List Nat}
    (e : List Nat), TxIn.decodeList n l = .ok (is, r) →
    TxIn.decodeList n (l ++ e) = .ok (is, r ++ e)
  | 0, l, is, r, e, h => by
    unfold TxIn.decodeList at h ⊢
    simp only [Except.ok.injEq, Prod.mk.injEq] at h ⊢
    exact ⟨h.1, by rw [h.2]⟩
  | n + 1, l, is, r, e, h => by
    unfold TxIn.decodeList at h ⊢
    rw [bind_ok_iff] at h ⊢
    obtain ⟨⟨i, r1⟩, hi, hrest⟩ := h
    refine ⟨(i, r1 ++ e), txin_decode_append e hi, ?_⟩
    dsimp only at hrest ⊢
    rw [bind_ok_iff] at hrest ⊢
    obtain ⟨⟨tl, r2⟩, htl, hte⟩ := hrest
    refine ⟨(tl, r2 ++ e), txin_decodeList_append n e htl, ?_⟩
    dsimp only
    simp only [Except.ok.injEq, Prod.mk.injEq] at hte ⊢
    exact ⟨hte.1, by rw [hte.2]⟩

theorem txout_decode_append {l : List Nat} {o : TxOut} {r : List Nat} (e : List Nat)
    (h : TxOut.consensus_decode l = .ok (o, r)) :
    TxOut.consensus_decode (l ++ e) = .ok (o, r ++ e) := by
  unfold TxOut.consensus_decode at h ⊢
  rw [bind_ok_iff] at h ⊢
  obtain ⟨⟨a, ra⟩, ha, h⟩ := h
  refine ⟨(a, ra ++ e), U64_decode_append e ha, ?_⟩
  dsimp only at h ⊢
  rw [bind_ok_iff] at h ⊢
  obtain ⟨⟨s, rb⟩, hs, h⟩ := h
  refine ⟨(s, rb ++ e), string_decode_append e hs, ?_⟩
  dsimp only at h ⊢
  simp only [Except.ok.injEq, Prod.mk.injEq] at h ⊢
  exact ⟨h.1, by rw [h.2]⟩

theorem txout_decodeList_append : ∀ (n : Nat) {l : List Nat} {os : List TxOut} {r : List Nat}
    (e : List Nat), TxOut.decodeList n l = .ok (os, r) →
    TxOut.decodeList n (l ++ e) = .ok (os, r ++ e)
  | 0, l, os, r, e, h => by
    unfold TxOut.decodeList at h ⊢
    simp only [Except.ok.injEq, Prod.mk.injEq] at h ⊢
    exact ⟨h.1, by rw [h.2]⟩
  | n + 1, l, os, r, e, h => by
    unfold TxOut.decodeList at h ⊢
    rw [bind_ok_iff] at h ⊢
    obtain ⟨⟨o, r1⟩, ho, hrest⟩ := h
    refine ⟨(o, r1 ++ e), txout_decode_append e ho, ?_⟩
    dsimp only at hrest ⊢
    rw [bind_ok_iff] at hrest ⊢
    obtain ⟨⟨tl, r2⟩, htl, hte⟩ := hrest
    refine ⟨(tl, r2 ++ e), txout_decodeList_append n e htl, ?_⟩
    dsimp only
    simp only [Except.ok.injEq, Prod.mk.injEq] at hte ⊢
    exact ⟨hte.1, by rw [hte.2]⟩

theorem transaction_decode_append {l : List Nat} {t : Transaction} {r : List Nat} (e : List Nat)
    (h : Transaction.consensus_decode l = .ok (t, r)) :
    Transaction.consensus_decode (l ++ e) = .ok (t, r ++ e) := by
  unfold Transaction.consensus_decode at h ⊢
  rw [bind_ok_iff] at h ⊢
  obtain ⟨⟨v, r1⟩, hv, h⟩ := h
  refine ⟨(v, r1 ++ e), U32_decode_append e hv, ?_⟩
  dsimp only at h ⊢
  rw [bind_ok_iff] at h ⊢
  obtain ⟨⟨ins, r2⟩, hins, h⟩ := h
  unfold VecTxIn.consensus_decode at hins
  rw [bind_ok_iff] at hins
  obtain ⟨⟨ilen, ra⟩, hilen, hins⟩ := hins
  refine ⟨(ins, r2 ++ e), ?_, ?_⟩
  · unfold VecTxIn.consensus_decode
    rw [bind_ok_iff]
    exact ⟨(ilen, ra ++ e), cs_decode_append e hilen, txin_decodeList_append ilen e hins⟩
  dsimp only at h ⊢
  rw [bind_ok_iff] at h ⊢
  obtain ⟨⟨outs, r3⟩, houts, h⟩ := h
  unfold VecTxOut.consensus_decode at houts
  rw [bind_ok_iff] at houts
  obtain ⟨⟨olen, rb⟩, holen, houts⟩ := houts
  refine ⟨(outs, r3 ++ e), ?_, ?_⟩
  · unfold VecTxOut.consensus_decode
    rw [bind_ok_iff]
    exact ⟨(olen, rb ++ e), cs_decode_append e holen, txout_decodeList_append olen e houts⟩
  dsimp only at h ⊢
  rw [bind_ok_iff] at h ⊢
  obtain ⟨⟨lt, r4⟩, hlt, h⟩ := h
  refine ⟨(lt, r4 ++ e), U32_decode_append e hlt, ?_⟩
  dsimp only at h ⊢
  simp only [Except.ok.injEq, Prod.mk.injEq] at h ⊢
  exact ⟨h.1, by rw [h.2]⟩

theorem cs_decode_single {b : Nat} (h1 : 1 ≤ b) (h2 : b ≤ 252) :
    CompactSize.consensus_decode [b] = .ok (b, []) := by
  have h8 : U8.consensus_decode [b] = .ok (b, []) := rfl
  unfold CompactSize.consensus_decode
  rw [bind_ok_iff]
  refine ⟨(b, []), h8, ?_⟩
  dsimp only
  rw [if_pos ⟨h1, h2⟩]

theorem cs_decode_fd {v : Nat} (hv : v < 65536) :
    CompactSize.consensus_decode (253 :: toLE 2 v) = .ok (v, []) := by
  have h8 : U8.consensus_decode (253 :: toLE 2 v) = .ok (253, toLE 2 v) := rfl
  have h16 : U16.consensus_decode (toLE 2 v) = .ok (fromLE (toLE 2 v), []) := by
    unfold U16.consensus_decode readExact
    rw [if_pos (by simp [toLE_length])]
    rw [List.take_of_length_le (by simp [toLE_length]),
        List.drop_of_length_le (by simp [toLE_length])]
    rfl
  unfold CompactSize.consensus_decode
  rw [bind_ok_iff]
  refine ⟨(253, toLE 2 v), h8, ?_⟩
  dsimp only
  rw [if_neg (by decide), if_pos rfl]
  rw [bind_ok_iff]
  refine ⟨(fromLE (toLE 2 v), []), h16, ?_⟩
  dsimp only
  rw [fromLE_toLE, Nat.mod_eq_of_lt (show v < 2 ^ (8 * 2) from hv)]

theorem cs_decode_fe {v : Nat} (hv : v < 4294967296) :
    CompactSize.consensus_decode (254 :: toLE 4 v) = .ok (v, []) := by
  have h8 : U8.consensus_decode (254 :: toLE 4 v) = .ok (254, toLE 4 v) := rfl
  have h32 : U32.consensus_decode (toLE 4 v) = .ok (fromLE (toLE 4 v), []) := by
    unfold U32.consensus_decode readExact
    rw [if_pos (by simp [toLE_length])]
    rw [List.take_of_length_le (by simp [toLE_length]),
        List.drop_of_length_le (by simp [toLE_length])]
    rfl
  unfold CompactSize.consensus_decode
  rw [bind_ok_iff]
  refine ⟨(254, toLE 4 v), h8, ?_⟩
  dsimp only
  rw [if_neg (by decide), if_neg (by decide), if_pos rfl]
  rw [bind_ok_iff]
  refine ⟨(fromLE (toLE 4 v), []), h32, ?_⟩
  dsimp only
  rw [fromLE_toLE, Nat.mod_eq_of_lt (show v < 2 ^ (8 * 4) from hv)]

theorem cs_decode_ff {v : Nat} (hv : v < 18446744073709551616) :
    CompactSize.consensus_decode (255 :: toLE 8 v) = .ok (v, []) := by
  have h8 : U8.consensus_decode (255 :: toLE 8 v) = .ok (255, toLE 8 v) := rfl
  have h64 : U64.consensus_decode (toLE 8 v) = .ok (fromLE (toLE 8 v), []) := by
    unfold U64.consensus_decode readExact
    rw [if_pos (by simp [toLE_length])]
    rw [List.take_of_length_le (by simp [toLE_length]),
        List.drop_of_length_le (by simp [toLE_length])]
    rfl
  unfold CompactSize.consensus_decode
  rw [bind_ok_iff]
  refine ⟨(255, toLE 8 v), h8, ?_⟩
  dsimp only
  rw [if_neg (by decide), if_neg (by decide), if_neg (by decide), if_pos rfl]
  rw [bind_ok_iff]
  refine ⟨(fromLE (toLE 8 v), []), h64, ?_⟩
  dsimp only
  rw [fromLE_toLE, Nat.mod_eq_of_lt (show v < 2 ^ (8 * 8) from hv)]

theorem cs_encode_le252 {v : Nat} (h : v ≤ 252) (w : List Nat) :
    CompactSize.consensus_encode v w = (w ++ [v], 1) := by
  have hm : v % 256 = v := Nat.mod_eq_of_lt (by omega)
  unfold CompactSize.consensus_encode U8.consensus_encode
  rw [if_pos h]
  dsimp only
  simp only [hm]

theorem cs_encode_fd {v : Nat} (h1 : 253 ≤ v) (h2 : v ≤ 65535) (w : List Nat) :
    CompactSize.consensus_encode v w = (w ++ 253 :: toLE 2 v, 3) := by
  have hm : v % 65536 = v := Nat.mod_eq_of_lt (by omega)
  unfold CompactSize.consensus_encode U16.consensus_encode
  rw [if_neg (by omega), if_pos (by omega)]
  dsimp only
  simp only [hm]
  simp

theorem cs_encode_fe {v : Nat} (h1 : 65536 ≤ v) (h2 : v ≤ 4294967295) (w : List Nat) :
    CompactSize.consensus_encode v w = (w ++ 254 :: toLE 4 v, 5) := by
  have hm : v % 4294967296 = v := Nat.mod_eq_of_lt (by omega)
  unfold CompactSize.consensus_encode U32.consensus_encode
  rw [if_neg (by omega), if_neg (by omega), if_pos (by omega)]
  dsimp only
  simp only [hm]
  simp

theorem cs_encode_ff {v : Nat} (h1 : 4294967296 ≤ v) (h2 : v < 18446744073709551616)
    (w : List Nat) : CompactSize.consensus_encode v w = (w ++ 255 :: toLE 8 v, 9) := by
  have hm : v % 18446744073709551616 = v := Nat.mod_eq_of_lt (by omega)
  unfold CompactSize.consensus_encode U64.consensus_encode
  rw [if_neg (by omega), if_neg (by omega), if_neg (by omega)]
  dsimp only
  simp only [hm]
  simp

/-- C1: the claim says a single byte b with 0 <= b <= 252 decodes to b, and
in particular byte 0 decodes to 0. The code rejects byte 0: both
compact-size decoders take the 1..=252 arm only for b >= 1 and send byte 0
to their error arm, as the repository test for read_compact_size pins. This
theorem records the actual boundary: byte 0 is an error in both decoders and
1..=252 decodes to the byte itself. -/
theorem compactSize_zero_is_error_and_nonzero_single_ok :
    read_compact_size [0] = .error ⟨ErrKind.invalidData, "invalid compact size"⟩ ∧
    CompactSize.consensus_decode [0] =
      .error ⟨ErrKind.invalidInput, "Compact size error: invalid compact size"⟩ ∧
    (∀ b : Nat, 1 ≤ b → b ≤ 252 →
      read_compact_size [b] = .ok (b, []) ∧ CompactSize.consensus_decode [b] = .ok (b, [])) := by
  refine ⟨by decide, by decide, ?_⟩
  intro b h1 h2
  refine ⟨?_, cs_decode_single h1 h2⟩
  unfold read_compact_size
  rw [readPad_one_cons]
  dsimp only [List.headD]
  rw [if_pos ⟨h1, h2⟩]

/-- Witness for the conjunct with hypotheses: byte 252 decodes to 252 in
both compact-size decoders. -/
theorem compactSize_zero_is_error_and_nonzero_single_ok_witness :
    read_compact_size [252] = .ok (252, []) ∧
    CompactSize.consensus_decode [252] = .ok (252, []) :=
  compactSize_zero_is_error_and_nonzero_single_ok.2.2 252 (by decide) (by decide)

/-- C2: the claim says every codec fails with a truncation error when fewer
bytes remain than required. The transaction.rs decoders (read_exact based)
do; but the lib.rs readers use read, which zero-pads a short buffer and
succeeds: read_u32 on the 1-byte buffer [1] returns Ok(1) after consuming
everything, instead of an error. -/
theorem read_u32_short_input_succeeds :
    read_u32 [1] = .ok (1, []) ∧
    (∀ l : List Nat, l.length < 4 → U32.consensus_decode l = .error eofErr) := by
  refine ⟨by decide, ?_⟩
  intro l hl
  unfold U32.consensus_decode
  have h : readExact 4 l = .error eofErr := by
    unfold readExact
    rw [if_neg (by omega)]
  rw [h]
  rfl

/-- Witness for the conjunct with a hypothesis: the read_exact based u32
decoder does fail on a 3-byte buffer. -/
theorem read_u32_short_input_succeeds_witness :
    U32.consensus_decode [1, 0, 0] = .error eofErr :=
  read_u32_short_input_succeeds.2 [1, 0, 0] (by decide)

/-- C5: CompactSize encode always emits the minimal-length form: one byte
equal to v for v <= 0xFC; 0xFD plus little-endian u16 for 0xFD..0xFFFF;
0xFE plus little-endian u32 for 0x10000..0xFFFFFFFF; 0xFF plus little-endian
u64 above that, for every u64 value and every writer prefix. -/
theorem compactSize_encode_minimal_form :
    ∀ (v : Nat) (w : List Nat), v < 18446744073709551616 →
      (v ≤ 252 → CompactSize.consensus_encode v w = (w ++ [v], 1)) ∧
      (253 ≤ v → v ≤ 65535 → CompactSize.consensus_encode v w = (w ++ 253 :: toLE 2 v, 3)) ∧
      (65536 ≤ v → v ≤ 4294967295 →
        CompactSize.consensus_encode v w = (w ++ 254 :: toLE 4 v, 5)) ∧
      (4294967296 ≤ v → CompactSize.consensus_encode v w = (w ++ 255 :: toLE 8 v, 9)) := by
  intro v w hv
  exact ⟨fun h => cs_encode_le252 h w,
         fun h1 h2 => cs_encode_fd h1 h2 w,
         fun h1 h2 => cs_encode_fe h1 h2 w,
         fun h1 => cs_encode_ff h1 hv w⟩

/-- Witness: the boundary values 252, 253, 65536 and 4294967296 encode to
1, 3, 5 and 9 bytes with the right prefixes. -/
theorem compactSize_encode_minimal_form_witness :
    CompactSize.consensus_encode 252 [] = ([252], 1) ∧
    CompactSize.consensus_encode 253 [] = ([253, 253, 0], 3) ∧
    CompactSize.consensus_encode 65536 [] = ([254, 0, 0, 1, 0], 5) ∧
    CompactSize.consensus_encode 4294967296 [] = ([255, 0, 0, 0, 0, 1, 0, 0, 0], 9) := by
  refine ⟨?_, ?_, ?_, ?_⟩
  · exact (compactSize_encode_minimal_form 252 [] (by decide)).1 (by decide)
  · have h := (compactSize_encode_minimal_form 253 [] (by decide)).2.1 (by decide) (by decide)
    rw [h]
    rfl
  · have h := (compactSize_encode_minimal_form 65536 [] (by decide)).2.2.1 (by decide) (by decide)
    rw [h]
    rfl
  · have h := (compactSize_encode_minimal_form 4294967296 [] (by decide)).2.2.2 (by decide)
    rw [h]
    rfl

/-- C4: the round-trip law fails at v = 0: encode 0 produces the single byte
0x00, which decode rejects, so decode(encode(0)) is an error, not 0. For
every v with 1 <= v < 2^64 the round trip does hold, and decode accepts all
of the longer 0xFD / 0xFE / 0xFF forms regardless of the value's magnitude
(permissive decode). -/
theorem compactSize_roundtrip_and_permissive :
    CompactSize.consensus_decode (CompactSize.consensus_encode 0 []).1 =
      .error ⟨ErrKind.invalidInput, "Compact size error: invalid compact size"⟩ ∧
    (∀ v : Nat, 1 ≤ v → v < 18446744073709551616 →
      CompactSize.consensus_decode (CompactSize.consensus_encode v []).1 = .ok (v, [])) ∧
    (∀ v : Nat, v < 65536 → CompactSize.consensus_decode (253 :: toLE 2 v) = .ok (v, [])) ∧
    (∀ v : Nat, v < 4294967296 → CompactSize.consensus_decode (254 :: toLE 4 v) = .ok (v, [])) ∧
    (∀ v : Nat, v < 18446744073709551616 →
      CompactSize.consensus_decode (255 :: toLE 8 v) = .ok (v, [])) := by
  refine ⟨by decide, ?_, fun v hv => cs_decode_fd hv, fun v hv => cs_decode_fe hv,
    fun v hv => cs_decode_ff hv⟩
  intro v h1 h2
  by_cases hc1 : v ≤ 252
  · rw [cs_encode_le252 hc1]
    exact cs_decode_single h1 hc1
  · by_cases hc2 : v ≤ 65535
    · rw [cs_encode_fd (by omega) hc2]
      exact cs_decode_fd (by omega)
    · by_cases hc3 : v ≤ 4294967295
      · rw [cs_encode_fe (by omega) hc3]
        exact cs_decode_fe (by omega)
      · rw [cs_encode_ff (by omega) h2]
        exact cs_decode_ff h2

/-- Witness: the round trip holds at 1, 20000 (the fd 20 4e fixture) and
the permissive non-minimal forms decode small values. -/
theorem compactSize_roundtrip_and_permissive_witness :
    CompactSize.consensus_decode (CompactSize.consensus_encode 20000 []).1 = .ok (20000, []) ∧
    CompactSize.consensus_decode [253, 5, 0] = .ok (5, []) ∧
    CompactSize.consensus_decode [254, 5, 0, 0, 0] = .ok (5, []) ∧
    CompactSize.consensus_decode [255, 5, 0, 0, 0, 0, 0, 0, 0] = .ok (5, []) := by
  refine ⟨compactSize_roundtrip_and_permissive.2.1 20000 (by decide) (by decide), ?_, ?_, ?_⟩
  · have h := compactSize_roundtrip_and_permissive.2.2.1 5 (by decide)
    exact h
  · have h := compactSize_roundtrip_and_permissive.2.2.2.1 5 (by decide)
    exact h
  · have h := compactSize_roundtrip_and_permissive.2.2.2.2 5 (by decide)
    exact h

set_option maxRecDepth 100000

/-- Writer-threading shape of the CompactSize encoder: encoding into any
writer w appends exactly the bytes the encoder would emit into an empty
writer. -/
theorem cs_encode_writer (v : Nat) (w : List Nat) :
    CompactSize.consensus_encode v w =
      (w ++ (CompactSize.consensus_encode v []).1, (CompactSize.consensus_encode v []).2) := by
  unfold CompactSize.consensus_encode U8.consensus_encode U16.consensus_encode
    U32.consensus_encode U64.consensus_encode
  by_cases h1 : v ≤ 252
  · simp only [if_pos h1]
    simp
  · simp only [if_neg h1]
    by_cases h2 : v ≤ 65535
    · simp only [if_pos h2]
      simp
    · simp only [if_neg h2]
      by_cases h3 : v ≤ 4294967295
      · simp only [if_pos h3]
        simp
      · simp only [if_neg h3]
        simp

/-- C3 counterexample: on a valid 62-byte transaction followed by one
trailing byte, decoding succeeds and leaves the trailing byte unconsumed,
yet the identifier run returns is the double hash of all 63 input bytes,
which differs from the double hash of the 62 consumed bytes. -/
theorem run_hashes_trailing_bytes_ce :
    (decodeFields (tx62 ++ [0])).map (fun p => p.2) = .ok [0] ∧
    (runBytes (tx62 ++ [0])).map (fun o => o.transaction_id) =
      .ok (hash_transaction (tx62 ++ [0])) ∧
    hash_transaction (tx62 ++ [0]) ≠ hash_transaction ((tx62 ++ [0]).take 62) :=
  ⟨by decide, by decide, by decide⟩

/-- C3 amended: run always hashes the entire input buffer, so the hashed
bytes coincide with the bytes consumed by decode steps 1-4 exactly when
decoding consumes the whole buffer (no trailing bytes). -/
theorem run_hash_equals_consumed_when_no_trailing :
    ∀ (tb : List Nat) (f : TxFields) (rest : List Nat), decodeFields tb = .ok (f, rest) →
      rest = [] →
      (runBytes tb).map (fun o => o.transaction_id) =
        .ok (hash_transaction (tb.take (tb.length - rest.length))) := by
  intro tb f rest hd hr
  subst hr
  have h : runBytes tb = .ok ⟨f.version, f.inputs, f.outputs, f.locktime, hash_transaction tb⟩ := by
    unfold runBytes
    rw [bind_ok_iff]
    exact ⟨(f, []), hd, rfl⟩
  rw [h]
  simp [Except.map, List.take_length]

/-- Witness: on the 62-byte fixture the decode consumes everything and the
returned identifier is the double hash of exactly the consumed bytes. -/
theorem run_hash_equals_consumed_when_no_trailing_witness :
    (runBytes tx62).map (fun o => o.transaction_id) =
      .ok (hash_transaction (tx62.take (tx62.length - List.length ([] : List Nat)))) :=
  run_hash_equals_consumed_when_no_trailing tx62
    ⟨1, [⟨List.replicate 32 0, 0, ['a', 'b'], 4294967295⟩], [⟨0, ['c', 'd']⟩], 0⟩ []
    (by decide) rfl

/-- C6: the identifier is the fixed hash applied twice (both in Txid::new
and in lib.rs hash_transaction), is exactly 32 bytes long for every input,
and its display form is the hex encoding of the 32 bytes reversed. -/
theorem txid_double_hash_32_bytes_reversed_display :
    ∀ data : List Nat,
      Txid.new data = sha256 (sha256 data) ∧
      (Txid.new data).length = 32 ∧
      hash_transaction data = sha256 (sha256 data) ∧
      serializeTxid (Txid.new data) = hexEncode (Txid.new data).reverse :=
  fun data => ⟨rfl, sha256_length (sha256 data), rfl, rfl⟩

/-- C7: transaction decode succeeds exactly when all four stages succeed in
sequence on the successive cursor positions, assembling every field
(never a partial structure), and any stage failure propagates as the
top-level error unchanged. -/
theorem transaction_decode_fully_formed_or_single_error :
    (∀ (l : List Nat) (t : Transaction) (r : List Nat),
      Transaction.consensus_decode l = .ok (t, r) ↔
        ∃ r1 r2 r3, Version.consensus_decode l = .ok (t.version, r1) ∧
          VecTxIn.consensus_decode r1 = .ok (t.inputs, r2) ∧
          VecTxOut.consensus_decode r2 = .ok (t.outputs, r3) ∧
          U32.consensus_decode r3 = .ok (t.lock_time, r)) ∧
    (∀ (l : List Nat) (er : IOErr), Version.consensus_decode l = .error er →
      Transaction.consensus_decode l = .error er) ∧
    (∀ (l r1 : List Nat) (v : Nat) (er : IOErr), Version.consensus_decode l = .ok (v, r1) →
      VecTxIn.consensus_decode r1 = .error er → Transaction.consensus_decode l = .error er) ∧
    (∀ (l r1 r2 : List Nat) (v : Nat) (ins : List TxIn) (er : IOErr),
      Version.consensus_decode l = .ok (v, r1) → VecTxIn.consensus_decode r1 = .ok (ins, r2) →
      VecTxOut.consensus_decode r2 = .error er → Transaction.consensus_decode l = .error er) ∧
    (∀ (l r1 r2 r3 : List Nat) (v : Nat) (ins : List TxIn) (outs : List TxOut) (er : IOErr),
      Version.consensus_decode l = .ok (v, r1) → VecTxIn.consensus_decode r1 = .ok (ins, r2) →
      VecTxOut.consensus_decode r2 = .ok (outs, r3) → U32.consensus_decode r3 = .error er →
      Transaction.consensus_decode l = .error er) := by
  refine ⟨?_, ?_, ?_, ?_, ?_⟩
  · intro l t r
    constructor
    · intro h
      unfold Transaction.consensus_decode at h
      rw [bind_ok_iff] at h
      obtain ⟨⟨v, r1⟩, hv, h⟩ := h
      dsimp only at h
      rw [bind_ok_iff] at h
      obtain ⟨⟨ins, r2⟩, hins, h⟩ := h
      dsimp only at h
      rw [bind_ok_iff] at h
      obtain ⟨⟨outs, r3⟩, houts, h⟩ := h
      dsimp only at h
      rw [bind_ok_iff] at h
      obtain ⟨⟨lt, r4⟩, hlt, h⟩ := h
      dsimp only at h
      simp only [Except.ok.injEq, Prod.mk.injEq] at h
      obtain ⟨ht, hr⟩ := h
      subst hr
      subst ht
      exact ⟨r1, r2, r3, hv, hins, houts, hlt⟩
    · intro ⟨r1, r2, r3, hv, hins, houts, hlt⟩
      unfold Transaction.consensus_decode
      rw [bind_ok_iff]
      refine ⟨(t.version, r1), hv, ?_⟩
      dsimp only
      rw [bind_ok_iff]
      refine ⟨(t.inputs, r2), hins, ?_⟩
      dsimp only
      rw [bind_ok_iff]
      refine ⟨(t.outputs, r3), houts, ?_⟩
      dsimp only
      rw [bind_ok_iff]
      exact ⟨(t.lock_time, r), hlt, rfl⟩
  · intro l er hv
    unfold Transaction.consensus_decode
    simp only [hv, Bind.bind, Except.bind]
  · intro l r1 v er hv hins
    unfold Transaction.consensus_decode
    simp only [hv, hins, Bind.bind, Except.bind]
  · intro l r1 r2 v ins er hv hins houts
    unfold Transaction.consensus_decode
    simp only [hv, hins, houts, Bind.bind, Except.bind]
  · intro l r1 r2 r3 v ins outs er hv hins houts hlt
    unfold Transaction.consensus_decode
    simp only [hv, hins, houts, hlt, Bind.bind, Except.bind]

/-- Witness: the empty buffer makes the version stage fail and that same
error is the top-level result. -/
theorem transaction_decode_fully_formed_or_single_error_witness :
    Transaction.consensus_decode [] = .error eofErr :=
  transaction_decode_fully_formed_or_single_error.2.1 [] eofErr (by decide)

/-- C8 counterexample: the script encoder, given the non-hex string "zz",
panics through the .expect (modelled as none); it does not return any error
value to its caller, and the source error type has no InvalidHex variant at
all. -/
theorem string_encode_invalid_hex_panics :
    String.consensus_encode ['z', 'z'] [] = none := by decide

/-- C8 amended: on a string that hex-decodes to bytes bs, the script encoder
emits CompactSize(bs.length) followed by the raw bytes into the writer and
reports the total written length; on invalid hex it panics instead of
returning an error. -/
theorem string_encode_valid_hex_emits_length_then_bytes :
    ∀ (s : List Char) (bs w : List Nat), hexDecode s = some bs →
      String.consensus_encode s w =
        some (w ++ (CompactSize.consensus_encode bs.length []).1 ++ bs,
              (CompactSize.consensus_encode bs.length []).2 + bs.length) := by
  intro s bs w h
  unfold String.consensus_encode
  rw [h]
  dsimp only
  rw [cs_encode_writer, List.append_assoc]

/-- Witness: encoding the valid hex string "ab" emits the length byte 1 and
the byte 0xAB. -/
theorem string_encode_valid_hex_emits_length_then_bytes_witness :
    String.consensus_encode ['a', 'b'] [] =
      some ([] ++ (CompactSize.consensus_encode (List.length [171]) []).1 ++ [171],
            (CompactSize.consensus_encode (List.length [171]) []).2 + List.length [171]) :=
  string_encode_valid_hex_emits_length_then_bytes ['a', 'b'] [171] [] (by decide)

/-- C9 counterexample: the main.rs snapshot of read_compact_size reaches a
literal panic on the malformed prefix byte 0 instead of returning an error
value. -/
theorem main_read_compact_size_zero_panics : mainReadCompactSize [0] = none := by decide

/-- C9 amended: the lib.rs / transaction.rs decode operations return error
values on malformed input without panicking: a non-hex argument makes run
return the mapped hex error, an invalid compact-size prefix yields an
InvalidData error, and truncated buffers make the read_exact based decoders
return UnexpectedEof; only the superseded main.rs snapshot (and the script
encoder of C8) can panic. -/
theorem malformed_input_yields_error_values :
    (∀ s : List Char, hexDecode s = none → run s = .error RunErr.hexError) ∧
    (∀ rest : List Nat, read_compact_size (0 :: rest) =
      .error ⟨ErrKind.invalidData, "invalid compact size"⟩) ∧
    (∀ l : List Nat, l.length < 2 → U16.consensus_decode l = .error eofErr) ∧
    (∀ l : List Nat, l.length < 8 → U64.consensus_decode l = .error eofErr) := by
  refine ⟨?_, ?_, ?_, ?_⟩
  · intro s h
    unfold run
    rw [h]
  · intro rest
    unfold read_compact_size
    rw [readPad_one_cons]
    dsimp only [List.headD]
    rw [if_neg (by decide), if_neg (by decide), if_neg (by decide), if_neg (by decide)]
  · intro l hl
    unfold U16.consensus_decode
    have h : readExact 2 l = .error eofErr := by
      unfold readExact
      rw [if_neg (by omega)]
    rw [h]
    rfl
  · intro l hl
    unfold U64.consensus_decode
    have h : readExact 8 l = .error eofErr := by
      unfold readExact
      rw [if_neg (by omega)]
    rw [h]
    rfl

/-- Witness: concrete malformed inputs of each kind produce error values. -/
theorem malformed_input_yields_error_values_witness :
    run ['z', 'z'] = .error RunErr.hexError ∧
    read_compact_size [0, 7] = .error ⟨ErrKind.invalidData, "invalid compact size"⟩ ∧
    U16.consensus_decode [1] = .error eofErr ∧
    U64.consensus_decode [1, 2, 3] = .error eofErr :=
  ⟨malformed_input_yields_error_values.1 ['z', 'z'] (by decide),
   malformed_input_yields_error_values.2.1 [7],
   malformed_input_yields_error_values.2.2.1 [1] (by decide),
   malformed_input_yields_error_values.2.2.2 [1, 2, 3] (by decide)⟩

/-- C10: any buffer that decodes as a complete transaction still decodes
successfully in run after appending arbitrary extra bytes: the trailing
bytes are never detected or reported (the hash, though, covers them). -/
theorem run_accepts_trailing_bytes :
    ∀ (l e : List Nat) (t : Transaction), Transaction.consensus_decode l = .ok (t, []) →
      e ≠ [] → runBytes (l ++ e) =
        .ok ⟨t.version, t.inputs, t.outputs, t.lock_time, hash_transaction (l ++ e)⟩ := by
  intro l e t hd he
  have h2 := transaction_decode_append e hd
  rw [List.nil_append] at h2
  have h3 := decodeFields_of_exact h2
  unfold runBytes
  rw [bind_ok_iff]
  exact ⟨(⟨t.version, t.inputs, t.outputs, t.lock_time⟩, e), h3, rfl⟩

/-- Witness: the 62-byte fixture with one junk byte appended still decodes,
yielding the same fields. -/
theorem run_accepts_trailing_bytes_witness :
    runBytes (tx62 ++ [0]) =
      .ok ⟨1, [⟨List.replicate 32 0, 0, ['a', 'b'], 4294967295⟩], [⟨0, ['c', 'd']⟩], 0,
           hash_transaction (tx62 ++ [0])⟩ :=
  run_accepts_trailing_bytes tx62 [0]
    ⟨1, [⟨List.replicate 32 0, 0, ['a', 'b'], 4294967295⟩], [⟨0, ['c', 'd']⟩], 0⟩
    (by decide) (by decide)
